import Mathlib

/-!
Verification of the fetch -> dedup -> summarize -> deliver agent pipeline of
the local-ai-agents repository, shallowly embedded in Lean.

The embedding follows `src/agents/base.py` (HistoryStore, BaseAgent.run),
`src/agents/literature.py` and `src/agents/news.py` (dedup, extract_ids,
summarize/merge), and `src/llm.py` (structured_output).

Python sets of strings are modelled as lists used up to membership; the
unspecified iteration order of a Python set (`list(existing)`) is made
explicit as an `enum` parameter together with a validity predicate stating
that the enumeration lists exactly the members of the union, each once.
-/

set_option maxRecDepth 4000

namespace LocalAgents

/-- One per-agent entry of the history ledger: the stored `seen_ids` list and
the `last_run` timestamp (a string or null). -/
structure AgentEntry where
  seen_ids : List String
  last_run : Option String
deriving DecidableEq

/-- The parsed history document: a map from agent name to its entry, as the
JSON object read by `HistoryStore.load`. -/
def Hist : Type := String → Option AgentEntry

/-- The empty ledger (missing or unreadable history file). -/
def empty_hist : Hist := fun _ => none

/-- `HistoryStore.get_seen_ids`: the stored id list for an agent, empty when
the agent has no entry.  Python wraps the list in `set(...)`; the model keeps
the list and every statement about it is a membership statement. -/
def get_seen_ids (hist : Hist) (agent : String) : List String :=
  match hist agent with
  | none => []
  | some e => e.seen_ids

/-- `HistoryStore.mark_seen`: union the new ids into the existing ids, keep
`list(existing)[-5000:]`, set `last_run` to the current timestamp.  The
conversion `list(existing)` of the Python set is the parameter
`enum existing new_ids`; `[-5000:]` is `drop (length - 5000)`. -/
def mark_seen (enum : List String → List String → List String) (now : String)
    (hist : Hist) (agent : String) (new_ids : List String) : Hist :=
  let existing := get_seen_ids hist agent
  let as_list := enum existing new_ids
  fun a =>
    if a = agent then
      some { seen_ids := as_list.drop (as_list.length - 5000), last_run := some now }
    else hist a

/-- A list is a valid Python-set enumeration of the union of `old` and `new`:
it has no duplicates and its members are exactly the members of the union.
The order is otherwise arbitrary, as CPython leaves set iteration order
unspecified. -/
def ValidEnumAt (old new l : List String) : Prop :=
  l.Nodup ∧ ∀ x, x ∈ l ↔ x ∈ old ∨ x ∈ new

/-- A concrete valid enumeration, used to instantiate witnesses. -/
def dedup_enum : List String → List String → List String :=
  fun old new => (old ++ new).dedup

theorem dedup_enum_valid (old new : List String) :
    ValidEnumAt old new (dedup_enum old new) := by
  constructor
  · exact List.nodup_dedup _
  · intro x
    simp [dedup_enum, List.mem_dedup, List.mem_append]

/-- Evaluation of `get_seen_ids` right after `mark_seen` for the same agent:
the enumeration of the union, truncated to its last 5000 entries. -/
theorem get_seen_ids_mark_seen_self
    (enum : List String → List String → List String)
    (now : String) (hist : Hist) (agent : String) (ids : List String) :
    get_seen_ids (mark_seen enum now hist agent ids) agent
      = (enum (get_seen_ids hist agent) ids).drop
          ((enum (get_seen_ids hist agent) ids).length - 5000) := by
  simp [get_seen_ids, mark_seen]

/-- Modelled from the spec: `mark_seen` is said to truncate the union "to the
most recent N entries (N = 5000)".  Recency order: the previously stored ids
in stored order, then the newly marked ids (most recent last); the most
recent 5000 are the last 5000 of that union with later occurrences winning
(`dedup` keeps the last occurrence). -/
def most_recent_cap (old new : List String) : List String :=
  ((old ++ new).dedup).drop ((old ++ new).dedup.length - 5000)

/-- Concrete prior state for the cap counterexample: 5000 pairwise distinct
ids (the strings of 0 to 4999 repetitions of one character). -/
def cap_old_ids : List String :=
  (List.range 5000).map fun n => String.mk (List.replicate n 'a')

/-- A fresh id, distinct from all of `cap_old_ids`. -/
def cap_new_id : String := String.mk (List.replicate 5000 'a')

/-- Ledger in which the literature agent has already seen `cap_old_ids`. -/
def cap_hist : Hist :=
  fun a => if a = "literature" then some ⟨cap_old_ids, none⟩ else none

/-- A set enumeration that happens to list the newly added id first.  CPython
set iteration order is hash-dependent and unspecified, so this is a possible
behaviour of `list(existing)`. -/
def cap_enum : List String → List String → List String :=
  fun _ _ => cap_new_id :: cap_old_ids

theorem cap_mk_injective :
    Function.Injective fun n : Nat => String.mk (List.replicate n 'a') := by
  intro n m h
  have h' : String.mk (List.replicate n 'a') = String.mk (List.replicate m 'a') := h
  have hd := congrArg String.data h'
  have hl := congrArg List.length hd
  simpa using hl

theorem cap_old_ids_nodup : cap_old_ids.Nodup :=
  List.Nodup.map cap_mk_injective (List.nodup_range 5000)

theorem cap_new_id_not_mem : cap_new_id ∉ cap_old_ids := by
  intro hmem
  rcases List.mem_map.mp hmem with ⟨n, hn, hEq⟩
  have : n = 5000 := cap_mk_injective hEq
  have hlt : n < 5000 := List.mem_range.mp hn
  omega

theorem cap_old_ids_length : cap_old_ids.length = 5000 := by
  simp [cap_old_ids]

/-- C2 fails on the code: with a valid (possible) Python set enumeration, the
id that was just marked — certainly among the 5000 most recently seen — is
absent from `get_seen_ids` after `mark_seen`, because the code truncates
`list(set)[-5000:]`, i.e. an arbitrary enumeration of the union, not the
most recent entries. -/
theorem mark_seen_cap_drops_newest :
    ValidEnumAt cap_old_ids [cap_new_id] (cap_enum cap_old_ids [cap_new_id]) ∧
    cap_new_id ∈ most_recent_cap cap_old_ids [cap_new_id] ∧
    cap_new_id ∉
      get_seen_ids (mark_seen cap_enum "t1" cap_hist "literature" [cap_new_id])
        "literature" := by
  have hnodup : (cap_new_id :: cap_old_ids).Nodup := by
    exact List.nodup_cons.mpr ⟨cap_new_id_not_mem, cap_old_ids_nodup⟩
  have henum : cap_enum cap_old_ids [cap_new_id] = cap_new_id :: cap_old_ids := rfl
  have h1 : (cap_enum cap_old_ids [cap_new_id]).Nodup := by
    rw [henum]; exact hnodup
  refine ⟨⟨h1, ?_⟩, ?_, ?_⟩
  · intro x
    rw [henum, List.mem_cons, List.mem_singleton]
    exact or_comm
  · have hnd : (cap_old_ids ++ [cap_new_id]).Nodup := by
      rw [List.nodup_append]
      refine ⟨cap_old_ids_nodup, List.nodup_singleton _, ?_⟩
      intro x hx hx'
      rw [List.mem_singleton] at hx'
      exact cap_new_id_not_mem (hx' ▸ hx)
    have hded : (cap_old_ids ++ [cap_new_id]).dedup = cap_old_ids ++ [cap_new_id] :=
      List.dedup_eq_self.mpr hnd
    have hlen : (cap_old_ids ++ [cap_new_id]).length = 5001 := by
      rw [List.length_append, cap_old_ids_length, List.length_singleton]
    unfold most_recent_cap
    rw [hded, hlen]
    have h51 : (5001 : Nat) - 5000 = 1 := by norm_num
    rw [h51, List.drop_append_of_le_length (by rw [cap_old_ids_length]; norm_num)]
    exact List.mem_append_right _ (List.mem_singleton.mpr rfl)
  · intro hmem
    have hhist : get_seen_ids cap_hist "literature" = cap_old_ids := by
      simp [get_seen_ids, cap_hist]
    have hstep := get_seen_ids_mark_seen_self cap_enum "t1" cap_hist "literature"
      [cap_new_id]
    rw [hhist, henum] at hstep
    have hlen : (cap_new_id :: cap_old_ids).length - 5000 = 1 := by
      rw [List.length_cons, cap_old_ids_length]
    rw [hstep, hlen, List.drop_one, List.tail_cons] at hmem
    exact cap_new_id_not_mem hmem

/-- C10: for every two distinct agent names A and B and every ledger state,
`mark_seen(A, ids)` leaves agent B's entire ledger entry (its `seen_ids` and
its `last_run`) unchanged. -/
theorem mark_seen_frame (enum : List String → List String → List String)
    (now : String) (hist : Hist) (A B : String) (ids : List String)
    (hne : B ≠ A) :
    mark_seen enum now hist A ids B = hist B := by
  simp [mark_seen, hne]

theorem mark_seen_frame_witness :
    ("news" : String) ≠ "literature" ∧
      mark_seen dedup_enum "2026-01-01T00:00:00+00:00"
        (fun a => if a = "news" then some ⟨["n1"], some "t0"⟩ else none)
        "literature" ["a", "b"] "news" = some ⟨["n1"], some "t0"⟩ := by
  refine ⟨by decide, ?_⟩
  rw [mark_seen_frame dedup_enum "2026-01-01T00:00:00+00:00"
    (fun a => if a = "news" then some ⟨["n1"], some "t0"⟩ else none)
    "literature" "news" ["a", "b"] (by decide)]
  simp

/-- An opaque Python exception value (only its identity matters). -/
structure Exc where
  msg : String
deriving DecidableEq

/-- The abstract step operations a concrete agent supplies to `BaseAgent.run`
(`fetch`, `dedup`, `summarize`, `extract_ids`, `deliver`).  Each may raise,
which the model captures as `Except Exc`.  `Res` is the merged result
dictionary type of the agent. -/
structure RunSteps (It Res : Type) where
  fetch : Except Exc (List It)
  dedup : List It → List String → Except Exc (List It)
  summarize : List It → Except Exc (Option Res)
  extract_ids : List It → Except Exc (List String)
  deliver : Res → Except Exc Unit

/-- What a call to `BaseAgent.run` leaves behind: the returned value or the
escaped exception, the history ledger as persisted on disk afterwards, and
the list of results handed to the delivery step. -/
structure RunOutcome (Res : Type) where
  outcome : Except Exc (Option Res)
  hist : Hist
  delivered : List Res

/-- `BaseAgent.run`, step for step: fetch inside try/except (an error returns
None); empty fetch returns None; dedup against `get_seen_ids` (dedup is NOT
inside a try/except, so its exception escapes); empty dedup returns None;
summarize inside try/except (an error or a None result returns None);
extract_ids and `history.mark_seen` outside any try/except (`save_exc` is
the exception a failing `HistoryStore.save` would raise, `none` when the
save succeeds); deliver outside any try/except unless `dry_run`. -/
def run_agent {It Res : Type}
    (steps : RunSteps It Res) (agent : String)
    (enum : List String → List String → List String) (now : String)
    (save_exc : Option Exc) (dry_run : Bool) (hist : Hist) :
    RunOutcome Res :=
  match steps.fetch with
  | .error _ => ⟨.ok none, hist, []⟩
  | .ok raw_items =>
    if raw_items.isEmpty then ⟨.ok none, hist, []⟩
    else
      let seen := get_seen_ids hist agent
      match steps.dedup raw_items seen with
      | .error e => ⟨.error e, hist, []⟩
      | .ok new_items =>
        if new_items.isEmpty then ⟨.ok none, hist, []⟩
        else
          match steps.summarize new_items with
          | .error _ => ⟨.ok none, hist, []⟩
          | .ok none => ⟨.ok none, hist, []⟩
          | .ok (some result) =>
            match steps.extract_ids new_items with
            | .error e => ⟨.error e, hist, []⟩
            | .ok new_ids =>
              match save_exc with
              | some e => ⟨.error e, hist, []⟩
              | none =>
                let hist2 := mark_seen enum now hist agent new_ids
                if dry_run then ⟨.ok (some result), hist2, []⟩
                else
                  match steps.deliver result with
                  | .error e => ⟨.error e, hist2, []⟩
                  | .ok _ => ⟨.ok (some result), hist2, [result]⟩

/-- C3: whenever fetch succeeds with a non-empty list, dedup succeeds with a
non-empty list, and summarize either raises or returns None, the run returns
the absence-marker, the History Store is completely unchanged, and nothing
is delivered. -/
theorem run_no_mutation_on_summarize_failure {It Res : Type}
    (steps : RunSteps It Res) (agent : String)
    (enum : List String → List String → List String) (now : String)
    (save_exc : Option Exc) (dry_run : Bool) (hist : Hist)
    (raw_items new_items : List It)
    (hf : steps.fetch = .ok raw_items) (hraw : raw_items ≠ [])
    (hd : steps.dedup raw_items (get_seen_ids hist agent) = .ok new_items)
    (hnew : new_items ≠ [])
    (hs : steps.summarize new_items = .ok none ∨
      ∃ e, steps.summarize new_items = .error e) :
    run_agent steps agent enum now save_exc dry_run hist
      = ⟨.ok none, hist, []⟩ := by
  have h1 : raw_items.isEmpty = false := by
    cases raw_items with
    | nil => exact absurd rfl hraw
    | cons a l => rfl
  have h2 : new_items.isEmpty = false := by
    cases new_items with
    | nil => exact absurd rfl hnew
    | cons a l => rfl
  rcases hs with hs | ⟨e, hs⟩ <;> simp [run_agent, hf, h1, hd, h2, hs]

/-- C7: whenever fetch raises or returns an empty list, the run returns the
absence-marker without raising, mutates no history, and delivers nothing. -/
theorem run_noop_on_empty_or_failed_fetch {It Res : Type}
    (steps : RunSteps It Res) (agent : String)
    (enum : List String → List String → List String) (now : String)
    (save_exc : Option Exc) (dry_run : Bool) (hist : Hist)
    (hf : steps.fetch = .ok [] ∨ ∃ e, steps.fetch = .error e) :
    run_agent steps agent enum now save_exc dry_run hist
      = ⟨.ok none, hist, []⟩ := by
  unfold run_agent
  rcases hf with hf | ⟨e, hf⟩ <;> rw [hf]
  simp

/-- Concrete steps for witnesses: one item, identity dedup/extract, a
summarize that returns None, a deliver that succeeds. -/
def wit_steps : RunSteps String String where
  fetch := .ok ["x"]
  dedup := fun items _ => .ok items
  summarize := fun _ => .ok none
  extract_ids := fun items => .ok items
  deliver := fun _ => .ok ()

theorem run_no_mutation_on_summarize_failure_witness :
    run_agent wit_steps "literature" dedup_enum "t" none false empty_hist
      = ⟨.ok none, empty_hist, []⟩ :=
  run_no_mutation_on_summarize_failure wit_steps "literature" dedup_enum "t"
    none false empty_hist ["x"] ["x"] rfl (by decide) rfl (by decide)
    (Or.inl rfl)

/-- Steps whose fetch finds nothing. -/
def wit_steps_empty : RunSteps String String :=
  { wit_steps with fetch := .ok [] }

theorem run_noop_on_empty_or_failed_fetch_witness :
    run_agent wit_steps_empty "news" dedup_enum "t" none false empty_hist
      = ⟨.ok none, empty_hist, []⟩ :=
  run_noop_on_empty_or_failed_fetch wit_steps_empty "news" dedup_enum "t"
    none false empty_hist (Or.inl rfl)

/-- Steps whose deliver raises: everything up to delivery succeeds. -/
def boom_steps : RunSteps String String where
  fetch := .ok ["x"]
  dedup := fun items _ => .ok items
  summarize := fun _ => .ok (some "res")
  extract_ids := fun items => .ok items
  deliver := fun _ => .error ⟨"boom"⟩

/-- C6 fails on the code as claimed: a deliver step that raises makes the
exception escape from `run` to the caller (deliver is called outside any
try/except in `BaseAgent.run`). -/
theorem run_propagates_deliver_exc :
    (run_agent boom_steps "news" dedup_enum "t" none false empty_hist).outcome
      = .error ⟨"boom"⟩ := rfl

/-- C6 amended: exceptions raised by fetch or summarize never escape `run`
(such runs return the absence-marker); provided the dedup, extract_ids and
deliver steps do not raise and the history save succeeds, the run always
returns normally, whatever fetch and summarize do. -/
theorem run_contains_fetch_and_summarize_errors {It Res : Type}
    (steps : RunSteps It Res) (agent : String)
    (enum : List String → List String → List String) (now : String)
    (dry_run : Bool) (hist : Hist)
    (hd : ∀ items seen, ∃ v, steps.dedup items seen = .ok v)
    (he : ∀ items, ∃ v, steps.extract_ids items = .ok v)
    (hdel : ∀ r, steps.deliver r = .ok ()) :
    ∃ r, (run_agent steps agent enum now none dry_run hist).outcome
      = .ok r := by
  cases hf : steps.fetch with
  | error e => exact ⟨none, by simp [run_agent, hf]⟩
  | ok raw =>
    by_cases hraw : raw.isEmpty = true
    · exact ⟨none, by simp [run_agent, hf, hraw]⟩
    · obtain ⟨nd, hd'⟩ := hd raw (get_seen_ids hist agent)
      by_cases hnd : nd.isEmpty = true
      · exact ⟨none, by simp [run_agent, hf, hraw, hd', hnd]⟩
      · cases hs : steps.summarize nd with
        | error e =>
          exact ⟨none, by simp [run_agent, hf, hraw, hd', hnd, hs]⟩
        | ok o =>
          cases o with
          | none =>
            exact ⟨none, by simp [run_agent, hf, hraw, hd', hnd, hs]⟩
          | some r =>
            obtain ⟨ids, he'⟩ := he nd
            cases dry_run with
            | true =>
              exact ⟨some r, by simp [run_agent, hf, hraw, hd', hnd, hs, he']⟩
            | false =>
              exact ⟨some r,
                by simp [run_agent, hf, hraw, hd', hnd, hs, he', hdel r]⟩

theorem run_contains_fetch_and_summarize_errors_witness :
    ∃ r, (run_agent wit_steps "grants" dedup_enum "t" none false
      empty_hist).outcome = .ok r :=
  run_contains_fetch_and_summarize_errors wit_steps "grants" dedup_enum "t"
    false empty_hist (fun items _ => ⟨items, rfl⟩) (fun items => ⟨items, rfl⟩)
    (fun _ => rfl)

/-- The outcome of one backend attempt inside `llm.structured_output`: a
response text, a connection/timeout-class failure (APIConnectionError or
APITimeoutError), or any other exception. -/
inductive LLMOutcome where
  | ok (text : String)
  | connErr
  | otherErr
deriving DecidableEq

/-- The observable output of `structured_output`: the returned value (None on
failure), how many backend attempts were made, and the sequence of
`time.sleep` delays (in seconds) performed between attempts. -/
structure SOTrace (J : Type) where
  result : Option J
  attempts : Nat
  delays : List Nat
deriving DecidableEq

/-- The retry loop `for attempt in range(max_retries + 1)` of
`structured_output`.  `parse` models `json.loads` (None is a
JSONDecodeError), `oracle attempt` the backend outcome of that attempt,
`fuel` the number of loop iterations left.  A parsed response returns it; a
parse failure returns None at once; a connection error sleeps
`2 ** attempt` seconds and retries while `attempt < max_retries`, else
returns None; any other exception returns None at once. -/
def so_loop {J : Type} (parse : String → Option J) (oracle : Nat → LLMOutcome)
    (max_retries : Nat) : Nat → Nat → SOTrace J
  | _, 0 => ⟨none, 0, []⟩
  | attempt, fuel + 1 =>
    match oracle attempt with
    | .ok text =>
      match parse text with
      | some v => ⟨some v, 1, []⟩
      | none => ⟨none, 1, []⟩
    | .otherErr => ⟨none, 1, []⟩
    | .connErr =>
      if attempt < max_retries then
        let r := so_loop parse oracle max_retries (attempt + 1) fuel
        ⟨r.result, r.attempts + 1, 2 ^ attempt :: r.delays⟩
      else ⟨none, 1, []⟩

/-- `llm.structured_output` with its loop started at attempt 0. -/
def structured_output {J : Type} (parse : String → Option J)
    (oracle : Nat → LLMOutcome) (max_retries : Nat) : SOTrace J :=
  so_loop parse oracle max_retries 0 (max_retries + 1)

theorem so_loop_attempts_le {J : Type} (parse : String → Option J)
    (oracle : Nat → LLMOutcome) (max_retries : Nat) :
    ∀ fuel attempt, (so_loop parse oracle max_retries attempt fuel).attempts ≤ fuel := by
  intro fuel
  induction fuel with
  | zero => intro attempt; simp [so_loop]
  | succ n ih =>
    intro attempt
    unfold so_loop
    split
    · split
      · simp
      · simp
    · simp
    · split
      · simpa using Nat.succ_le_succ (ih (attempt + 1))
      · simp

/-- Stepping lemma: a prefix of `k` connection errors unrolls the loop into
`k` sleeps of 1, 2, ..., 2 ^ (k-1) seconds before the loop state at attempt
`k`. -/
theorem so_prefix {J : Type} (parse : String → Option J)
    (oracle : Nat → LLMOutcome) (max_retries : Nat) :
    ∀ k, k ≤ max_retries → (∀ i, i < k → oracle i = .connErr) →
      structured_output parse oracle max_retries
        = ⟨(so_loop parse oracle max_retries k (max_retries + 1 - k)).result,
           (so_loop parse oracle max_retries k (max_retries + 1 - k)).attempts + k,
           ((List.range k).map (2 ^ ·)) ++
             (so_loop parse oracle max_retries k (max_retries + 1 - k)).delays⟩ := by
  intro k
  induction k with
  | zero =>
    intro _ _
    simp [structured_output]
  | succ n ih =>
    intro hk hpre
    have hn : n ≤ max_retries := Nat.le_of_succ_le hk
    have hlt : n < max_retries := hk
    rw [ih hn (fun i hi => hpre i (Nat.lt_succ_of_lt hi))]
    have hfuel : max_retries + 1 - n = (max_retries - n) + 1 := by omega
    have hfuel2 : max_retries - n = max_retries + 1 - (n + 1) := by omega
    have hstep : so_loop parse oracle max_retries n ((max_retries - n) + 1)
        = ⟨(so_loop parse oracle max_retries (n + 1) (max_retries - n)).result,
           (so_loop parse oracle max_retries (n + 1) (max_retries - n)).attempts + 1,
           2 ^ n ::
             (so_loop parse oracle max_retries (n + 1) (max_retries - n)).delays⟩ := by
      conv_lhs => unfold so_loop
      simp only [hpre n (Nat.lt_succ_self n), if_pos hlt]
    rw [hfuel, hstep, hfuel2, List.range_succ, List.map_append]
    simp only [SOTrace.mk.injEq]
    refine ⟨by trivial, by omega, ?_⟩
    rw [List.append_assoc]
    simp

/-- C5: `structured_output` failure semantics.  With any prefix of `k ≤
max_retries` connection-error attempts: a response at attempt `k` that
parses is returned after `k + 1` attempts and sleeps of 1, 2, ...,
2 ^ (k-1) seconds; a JSON parse failure at attempt `k` returns None at once;
any other exception at attempt `k` returns None at once; if every attempt up
to `max_retries` hits a connection error the call returns None after exactly
`max_retries + 1` attempts; and the number of attempts never exceeds
`max_retries + 1`. -/
theorem structured_output_spec {J : Type} (parse : String → Option J)
    (oracle : Nat → LLMOutcome) (max_retries k : Nat) (t : String) (v : J)
    (hk : k ≤ max_retries) (hpre : ∀ i, i < k → oracle i = .connErr) :
    (structured_output parse oracle max_retries).attempts ≤ max_retries + 1 ∧
    (oracle k = .ok t → parse t = some v →
      structured_output parse oracle max_retries
        = ⟨some v, k + 1, (List.range k).map (2 ^ ·)⟩) ∧
    (oracle k = .ok t → parse t = none →
      structured_output parse oracle max_retries
        = ⟨none, k + 1, (List.range k).map (2 ^ ·)⟩) ∧
    (oracle k = .otherErr →
      structured_output parse oracle max_retries
        = ⟨none, k + 1, (List.range k).map (2 ^ ·)⟩) ∧
    ((∀ i, i ≤ max_retries → oracle i = .connErr) →
      structured_output parse oracle max_retries
        = ⟨none, max_retries + 1, (List.range max_retries).map (2 ^ ·)⟩) := by
  have hfuel : max_retries + 1 - k = (max_retries - k) + 1 := by omega
  have hbase := so_prefix parse oracle max_retries k hk hpre
  refine ⟨?_, ?_, ?_, ?_, ?_⟩
  · exact so_loop_attempts_le parse oracle max_retries (max_retries + 1) 0
  · intro hok hparse
    rw [hbase, hfuel]
    unfold so_loop
    simp only [hok, hparse, SOTrace.mk.injEq]
    exact ⟨by trivial, by omega, by simp⟩
  · intro hok hparse
    rw [hbase, hfuel]
    unfold so_loop
    simp only [hok, hparse, SOTrace.mk.injEq]
    exact ⟨by trivial, by omega, by simp⟩
  · intro hother
    rw [hbase, hfuel]
    unfold so_loop
    simp only [hother, SOTrace.mk.injEq]
    exact ⟨by trivial, by omega, by simp⟩
  · intro hall
    have hbase2 := so_prefix parse oracle max_retries max_retries
      (Nat.le_refl _) (fun i hi => hall i (Nat.le_of_lt hi))
    have hfuel2 : max_retries + 1 - max_retries = 0 + 1 := by omega
    rw [hbase2, hfuel2]
    unfold so_loop
    simp only [hall max_retries (Nat.le_refl _)]
    rw [if_neg (Nat.lt_irrefl max_retries)]
    simp only [SOTrace.mk.injEq]
    exact ⟨by trivial, by omega, by simp⟩

theorem structured_output_spec_witness :
    (structured_output (fun s => if s = "ok" then some 7 else none)
        (fun i => if i = 0 then LLMOutcome.connErr else LLMOutcome.ok "ok")
        2).attempts ≤ 3 ∧
    ((fun i => if i = 0 then LLMOutcome.connErr else LLMOutcome.ok "ok") 1
        = LLMOutcome.ok "ok" →
      (fun s => if s = "ok" then some 7 else none) "ok" = some 7 →
      structured_output (fun s => if s = "ok" then some 7 else none)
          (fun i => if i = 0 then LLMOutcome.connErr else LLMOutcome.ok "ok") 2
        = ⟨some 7, 2, (List.range 1).map (2 ^ ·)⟩) ∧ True := by
  have h := structured_output_spec
    (fun s => if s = "ok" then some 7 else none)
    (fun i => if i = 0 then LLMOutcome.connErr else LLMOutcome.ok "ok")
    2 1 "ok" 7 (by decide)
    (by intro i hi; have h0 : i = 0 := by omega
        subst h0; rfl)
  exact ⟨h.1, h.2.1, trivial⟩

/-- A literature item as assembled by `LiteratureAgent.fetch`. -/
structure LitItem where
  id : String
  title : String
  authors : String
  abstract : String
  source : String
  url : String
  date : String
deriving DecidableEq

/-- One entry of the model's `assessments` array.  `item_number` is the
1-based position it refers to (any integer may come back from the model);
the judgment fields are read with `.get(..., default)`, hence `Option`. -/
structure LitAssessment where
  item_number : Int
  one_liner : Option String
  clinical_relevance : Option String
  tags : Option (List String)
deriving DecidableEq

/-- The parsed JSON object returned by `_llm_summarize` for the literature
agent; both keys are read with `.get`, hence `Option`. -/
structure LitLLM where
  summary : Option String
  assessments : Option (List LitAssessment)
deriving DecidableEq

/-- One merged paper of the literature Result: factual fields from the item,
judgment fields from the assessment. -/
structure LitPaper where
  title : String
  authors : String
  source : String
  url : String
  one_liner : String
  clinical_relevance : String
  tags : List String
deriving DecidableEq

/-- The literature agent's merged Result. -/
structure LitResult where
  summary : String
  papers : List LitPaper
deriving DecidableEq

/-- Lookup in the Python dict comprehension built over a list keyed by
an integer: the LAST entry with the given key wins, a missing key is None.
This is exactly what `d[i]` sees after building the dict and `i in d`. -/
def dict_last {β : Type} (key : β → Int) : List β → Int → Option β
  | [], _ => none
  | a :: rest, i =>
    match dict_last key rest i with
    | some b => some b
    | none => if key a = i then some a else none

/-- The record appended by the literature merge loop. -/
def mk_lit_paper (item : LitItem) (a : LitAssessment) : LitPaper :=
  { title := item.title, authors := item.authors, source := item.source,
    url := item.url, one_liner := a.one_liner.getD "",
    clinical_relevance := a.clinical_relevance.getD "",
    tags := a.tags.getD [] }

/-- The merge loop of `LiteratureAgent.summarize`:
`for i, item in enumerate(limited, 1): if i in assessments: append(...)`. -/
def lit_merge (limited : List LitItem) (entries : List LitAssessment) :
    List LitPaper :=
  limited.enum.filterMap fun p =>
    (dict_last LitAssessment.item_number entries ((p.1 : Int) + 1)).map
      (mk_lit_paper p.2)

/-- The merge as the spec words it: walk the 1-based positions of the batch
in the original batch order; a position selected by the response contributes
the record combining the item AT THAT POSITION with the judgment keyed by
it; an unselected position contributes nothing. -/
def lit_merge_spec (limited : List LitItem) (entries : List LitAssessment) :
    List LitPaper :=
  (List.range limited.length).filterMap fun idx =>
    (limited.get? idx).bind fun item =>
      (dict_last LitAssessment.item_number entries ((idx : Int) + 1)).map
        (mk_lit_paper item)

/-- A news item as assembled by `NewsAgent.fetch`. -/
structure NewsItem where
  id : String
  title : String
  source : String
  url : String
  summary : String
  published : String
deriving DecidableEq

/-- One entry of the model's `selected_items` array for the news agent. -/
structure NewsSelection where
  item_number : Int
  category : Option String
  one_liner : Option String
  relevance : Option String
deriving DecidableEq

/-- One merged item of the news Result. -/
structure NewsMerged where
  title : String
  source : String
  url : String
  category : String
  one_liner : String
  relevance : String
deriving DecidableEq

/-- The record appended by the news merge loop. -/
def mk_news_merged (item : NewsItem) (s : NewsSelection) : NewsMerged :=
  { title := item.title, source := item.source, url := item.url,
    category := s.category.getD "", one_liner := s.one_liner.getD "",
    relevance := s.relevance.getD "" }

/-- The merge loop of `NewsAgent.summarize`. -/
def news_merge (limited : List NewsItem) (entries : List NewsSelection) :
    List NewsMerged :=
  limited.enum.filterMap fun p =>
    (dict_last NewsSelection.item_number entries ((p.1 : Int) + 1)).map
      (mk_news_merged p.2)

/-- The news merge as the spec words it, by 1-based positions. -/
def news_merge_spec (limited : List NewsItem) (entries : List NewsSelection) :
    List NewsMerged :=
  (List.range limited.length).filterMap fun idx =>
    (limited.get? idx).bind fun item =>
      (dict_last NewsSelection.item_number entries ((idx : Int) + 1)).map
        (mk_news_merged item)

theorem enumFrom_filterMap_eq_range {α γ : Type} (f : Nat → α → Option γ) :
    ∀ (l : List α) (n : Nat),
      (l.enumFrom n).filterMap (fun p => f p.1 p.2)
        = (List.range l.length).filterMap fun idx =>
            (l.get? idx).bind fun a => f (n + idx) a := by
  intro l
  induction l with
  | nil => intro n; simp
  | cons a l ih =>
    intro n
    rw [List.enumFrom_cons, List.filterMap_cons, List.length_cons,
      List.range_succ_eq_map, List.filterMap_cons]
    rw [List.filterMap_map]
    have hr : (List.range l.length).filterMap
          ((fun idx => ((a :: l).get? idx).bind fun x => f (n + idx) x) ∘ (· + 1))
        = (List.range l.length).filterMap fun idx =>
            (l.get? idx).bind fun x => f (n + 1 + idx) x := by
      apply List.filterMap_congr
      intro idx _
      show ((a :: l).get? (idx + 1)).bind (fun x => f (n + (idx + 1)) x)
        = (l.get? idx).bind fun x => f (n + 1 + idx) x
      rw [List.get?_cons_succ]
      have harith : n + (idx + 1) = n + 1 + idx := by omega
      rw [harith]
    rw [hr, ih (n + 1)]
    simp

theorem dict_last_filter {β : Type} (key : β → Int) (p : β → Bool) :
    ∀ (entries : List β) (i : Int), (∀ a, key a = i → p a = true) →
      dict_last key (entries.filter p) i = dict_last key entries i := by
  intro entries
  induction entries with
  | nil => intro i _; simp
  | cons a rest ih =>
    intro i h
    rw [List.filter_cons]
    by_cases hp : p a = true
    · rw [if_pos hp]
      show (match dict_last key (rest.filter p) i with
        | some b => some b
        | none => if key a = i then some a else none)
        = dict_last key (a :: rest) i
      rw [ih i h]
      rfl
    · rw [if_neg hp]
      have hne : key a ≠ i := fun hEq => hp (h a hEq)
      rw [ih i h]
      have hcons : dict_last key (a :: rest) i
          = match dict_last key rest i with
            | some b => some b
            | none => if key a = i then some a else none := rfl
      rw [hcons]
      cases hdd : dict_last key rest i with
      | some b => rfl
      | none => rw [if_neg hne]

theorem mem_enumFrom_lt {α : Type} :
    ∀ (l : List α) (n : Nat) (p : Nat × α), p ∈ l.enumFrom n →
      p.1 < n + l.length := by
  intro l
  induction l with
  | nil => intro n p h; simp at h
  | cons a l ih =>
    intro n p h
    rw [List.enumFrom_cons, List.mem_cons] at h
    rcases h with h | h
    · subst h; simp
    · have := ih (n + 1) p h
      simp [List.length_cons]
      omega

/-- C1: merge correlation.  For both the literature and the news agent, the
merge loop produces exactly the items at the selected 1-based positions, in
the original batch order, with the factual fields taken from the item and
the judgment fields attached (equality with the position-walk spec
formulation); and entries whose item_number is out of range (below 1 or
above the batch length) have no effect on the result. -/
theorem merge_correlation :
    (∀ (limited : List LitItem) (entries : List LitAssessment),
      lit_merge limited entries = lit_merge_spec limited entries) ∧
    (∀ (limited : List LitItem) (entries : List LitAssessment),
      lit_merge limited (entries.filter fun a =>
          decide (1 ≤ a.item_number) && decide (a.item_number ≤ (limited.length : Int)))
        = lit_merge limited entries) ∧
    (∀ (limited : List NewsItem) (entries : List NewsSelection),
      news_merge limited entries = news_merge_spec limited entries) ∧
    (∀ (limited : List NewsItem) (entries : List NewsSelection),
      news_merge limited (entries.filter fun s =>
          decide (1 ≤ s.item_number) && decide (s.item_number ≤ (limited.length : Int)))
        = news_merge limited entries) := by
  have hboundL : ∀ (limited : List LitItem) (entries : List LitAssessment)
      (p : Nat × LitItem), p ∈ limited.enum →
      (dict_last LitAssessment.item_number
          (entries.filter fun a =>
            decide (1 ≤ a.item_number) &&
              decide (a.item_number ≤ (limited.length : Int)))
          ((p.1 : Int) + 1)).map (mk_lit_paper p.2)
        = (dict_last LitAssessment.item_number entries ((p.1 : Int) + 1)).map
            (mk_lit_paper p.2) := by
    intro limited entries p hp
    have hlt : p.1 < limited.length := by
      have := mem_enumFrom_lt limited 0 p hp
      omega
    rw [dict_last_filter]
    intro a ha
    rw [Bool.and_eq_true, decide_eq_true_iff, decide_eq_true_iff, ha]
    constructor
    · omega
    · omega
  have hboundN : ∀ (limited : List NewsItem) (entries : List NewsSelection)
      (p : Nat × NewsItem), p ∈ limited.enum →
      (dict_last NewsSelection.item_number
          (entries.filter fun s =>
            decide (1 ≤ s.item_number) &&
              decide (s.item_number ≤ (limited.length : Int)))
          ((p.1 : Int) + 1)).map (mk_news_merged p.2)
        = (dict_last NewsSelection.item_number entries ((p.1 : Int) + 1)).map
            (mk_news_merged p.2) := by
    intro limited entries p hp
    have hlt : p.1 < limited.length := by
      have := mem_enumFrom_lt limited 0 p hp
      omega
    rw [dict_last_filter]
    intro s hs
    rw [Bool.and_eq_true, decide_eq_true_iff, decide_eq_true_iff, hs]
    constructor
    · omega
    · omega
  refine ⟨?_, ?_, ?_, ?_⟩
  · intro limited entries
    have h := enumFrom_filterMap_eq_range
      (fun i (item : LitItem) =>
        (dict_last LitAssessment.item_number entries ((i : Int) + 1)).map
          (mk_lit_paper item)) limited 0
    simpa [lit_merge, lit_merge_spec, List.enum] using h
  · intro limited entries
    unfold lit_merge
    exact List.filterMap_congr fun p hp => hboundL limited entries p hp
  · intro limited entries
    have h := enumFrom_filterMap_eq_range
      (fun i (item : NewsItem) =>
        (dict_last NewsSelection.item_number entries ((i : Int) + 1)).map
          (mk_news_merged item)) limited 0
    simpa [news_merge, news_merge_spec, List.enum] using h
  · intro limited entries
    unfold news_merge
    exact List.filterMap_congr fun p hp => hboundN limited entries p hp

/-- `LiteratureAgent.dedup`: keep the items whose id is not in the seen set
(`item["id"] not in seen_ids`; the Python set is used only for membership,
so a list up to membership models it). -/
def lit_dedup (items : List LitItem) (seen_ids : List String) : List LitItem :=
  items.filter fun item => decide (item.id ∉ seen_ids)

/-- `LiteratureAgent.extract_ids`: the id of every item, in order. -/
def lit_extract_ids (items : List LitItem) : List String :=
  items.map fun item => item.id

/-- C4: dedup keeps exactly the items of the batch whose id is unseen (hence
its ids are disjoint from the seen set), and a second pass over the same
batch against a history that now contains every id of the batch yields zero
items. -/
theorem dedup_disjoint_idempotent (items : List LitItem)
    (seen seen2 : List String)
    (h : ∀ item ∈ items, item.id ∈ seen2) :
    (∀ item, item ∈ lit_dedup items seen ↔ item ∈ items ∧ item.id ∉ seen) ∧
    (∀ item ∈ lit_dedup items seen, item.id ∉ seen) ∧
    lit_dedup items seen2 = [] := by
  have hmem : ∀ item, item ∈ lit_dedup items seen ↔
      item ∈ items ∧ item.id ∉ seen := by
    intro item
    rw [lit_dedup, List.mem_filter, decide_eq_true_iff]
  refine ⟨hmem, ?_, ?_⟩
  · intro item hm
    exact ((hmem item).mp hm).2
  · rw [lit_dedup, List.filter_eq_nil_iff]
    intro item hitem
    rw [decide_eq_true_iff]
    intro hnot
    exact hnot (h item hitem)

/-- Three one-field-apart literature items for witnesses. -/
def wit_item (s : String) : LitItem :=
  ⟨s, "T" ++ s, "A" ++ s, "Abs" ++ s, "PubMed - J", "http://x/" ++ s, "2026"⟩

theorem dedup_disjoint_idempotent_witness :
    (∀ item ∈ [wit_item "1", wit_item "2"],
      item.id ∈ ["1", "2", "3"]) ∧
    lit_dedup [wit_item "1", wit_item "2"] ["1", "2", "3"] = [] := by
  have hpre : ∀ item ∈ [wit_item "1", wit_item "2"],
      item.id ∈ ["1", "2", "3"] := by decide
  exact ⟨hpre,
    (dedup_disjoint_idempotent [wit_item "1", wit_item "2"] ["1"]
      ["1", "2", "3"] hpre).2.2⟩

/-- `LiteratureAgent.summarize`: cap the batch at `max_items * 2`, render the
numbered prompt (abstracts truncated to 500 characters, whole content to
5000), call the model (`llm` stands for `_llm_summarize`; `none` covers both
a null and a falsy result, which abort), then merge. -/
def lit_summarize (max_items : Nat) (llm : String → Option LitLLM)
    (items : List LitItem) : Option LitResult :=
  let limited := items.take (max_items * 2)
  let content_parts := limited.enum.map fun p =>
    "Item " ++ toString (p.1 + 1) ++ ":\n" ++
      "Title: " ++ p.2.title ++ "\n" ++
      "Authors: " ++ p.2.authors ++ "\n" ++
      "Source: " ++ p.2.source ++ "\n" ++
      "Abstract: " ++ p.2.abstract.take 500 ++ "\n"
  let content := String.intercalate "\n---\n" content_parts
  let content2 :=
    if content.length > 5000 then content.take 5000 ++ "\n[truncated]"
    else content
  match llm content2 with
  | none => none
  | some r =>
    some ⟨r.summary.getD "", lit_merge limited (r.assessments.getD [])⟩

/-- The scenario model response: select item 2 only. -/
def scen_llm : String → Option LitLLM :=
  fun _ => some ⟨some "s", some [⟨2, some "b one", some "high", some ["tag"]⟩]⟩

/-- The C8 scenario's pipeline steps: fetch returns items with ids a, b, c;
dedup, extract_ids and summarize are the literature agent's own operations
(with `max_items = 10` as configured by default); deliver succeeds. -/
def scen_steps : RunSteps LitItem LitResult where
  fetch := .ok [wit_item "a", wit_item "b", wit_item "c"]
  dedup := fun items seen => .ok (lit_dedup items seen)
  summarize := fun items => .ok (lit_summarize 10 scen_llm items)
  extract_ids := fun items => .ok (lit_extract_ids items)
  deliver := fun _ => .ok ()

/-- C8: with empty history, fetched ids a, b, c and a model response that
selects item 2 only, the run returns a Result with exactly one entry and
afterwards the agent's seen ids are a, b and c — all dedup survivors, not
just the selected one. -/
theorem mark_seen_covers_dedup_survivors :
    (run_agent scen_steps "literature" dedup_enum "t" none false
        empty_hist).outcome
      = .ok (some ⟨"s", [mk_lit_paper (wit_item "b")
          ⟨2, some "b one", some "high", some ["tag"]⟩]⟩) ∧
    (⟨"s", [mk_lit_paper (wit_item "b")
        ⟨2, some "b one", some "high", some ["tag"]⟩]⟩ : LitResult).papers.length
      = 1 ∧
    get_seen_ids
      (run_agent scen_steps "literature" dedup_enum "t" none false
        empty_hist).hist "literature"
      = ["a", "b", "c"] := by
  refine ⟨rfl, rfl, by decide⟩

/-- The observable contents of the two paths `HistoryStore.save` touches:
the ledger file (`history.json`) and its temporary sibling. -/
structure LedgerFile where
  ledger : Option String
  tmp : Option String
deriving DecidableEq

/-- `HistoryStore.save` as its sequence of externally observable filesystem
states: `tmp.write_text` proceeds through every partial prefix of the new
document (a crash can stop it anywhere), then `tmp.rename(self.path)`
atomically replaces the ledger with the full document.  Every list element
is a state at which the process could be interrupted, the last one the
state after the rename completed. -/
def save_states (fs : LedgerFile) (data : String) : List LedgerFile :=
  ((List.range (data.length + 1)).map fun k =>
    ⟨fs.ledger, some (data.take k)⟩)
  ++ [⟨some data, none⟩]

/-- C9: at every intermediate point of `save` before the final rename the
ledger path still holds the previous complete document; the final state
holds exactly the full new document; hence a reader only ever observes the
old complete document or the new complete document, never a partial one. -/
theorem save_atomic (fs : LedgerFile) (data : String) :
    (∀ s ∈ (save_states fs data).dropLast, s.ledger = fs.ledger) ∧
    (save_states fs data).getLast? = some ⟨some data, none⟩ ∧
    (∀ s ∈ save_states fs data,
      s.ledger = fs.ledger ∨ s.ledger = some data) := by
  refine ⟨?_, ?_, ?_⟩
  · intro s hs
    rw [save_states, List.dropLast_concat] at hs
    rcases List.mem_map.mp hs with ⟨k, _, hk⟩
    rw [← hk]
  · rw [save_states, List.getLast?_concat]
  · intro s hs
    rw [save_states, List.mem_append] at hs
    rcases hs with hs | hs
    · rcases List.mem_map.mp hs with ⟨k, _, hk⟩
      left
      rw [← hk]
    · right
      rw [List.mem_singleton] at hs
      rw [hs]

theorem save_atomic_witness :
    ((⟨some "old", some ""⟩ : LedgerFile)
        ∈ (save_states ⟨some "old", none⟩ "ab").dropLast) ∧
    (⟨some "old", some ""⟩ : LedgerFile).ledger
      = (⟨some "old", none⟩ : LedgerFile).ledger := by
  refine ⟨by decide, ?_⟩
  exact (save_atomic ⟨some "old", none⟩ "ab").1 ⟨some "old", some ""⟩ (by decide)

end LocalAgents
